import Mathlib

/-!
Verification of the incremental playlist-building / link-caching engine of
`abovevtt_playlist_db.py` (repository firelightrpg/dropbox-playlists).

The Python source is shallowly embedded below.  Pure string and path
manipulation from the Python standard library (`str.split`, `str.strip`,
`str.lower`, `os.path.dirname`, `os.path.basename`, `os.path.splitext`,
`os.path.relpath`, `os.path.join`) is modelled by structurally recursive
functions over `List Char`, faithful on the POSIX-normalized inputs the
script produces.  The Dropbox SDK and the mutagen ID3 reader are external
collaborators; they are modelled by an `Env` record of fallible functions
(`Except`), since every SDK call in the source can raise and nothing in the
source catches those exceptions.  Remote calls are made observable through a
`RemoteOp` trace so that claims about which calls happen can be stated.
-/

/-! ## Character-level models of Python string operations -/

/-- Model of the Python string comparison used by `sorted`: lexicographic
comparison of the code-point sequences. -/
def charListLt : List Char → List Char → Bool
  | [], [] => false
  | [], _ :: _ => true
  | _ :: _, [] => false
  | a :: as, b :: bs =>
    if a < b then true
    else if b < a then false
    else charListLt as bs

/-- Strict lexicographic order on strings (model of Python `<` on `str`). -/
def strLt (a b : String) : Bool := charListLt a.data b.data

/-- Non-strict lexicographic order on strings. -/
def strLe (a b : String) : Bool := !(strLt b a)

/-- Model of Python `str.split(sep)` for a one-character separator:
`"".split(sep) = [""]`, and separators delimit (possibly empty) fields. -/
def splitOnChar (sep : Char) : List Char → List (List Char)
  | [] => [[]]
  | c :: r =>
    match splitOnChar sep r with
    | p :: rest => if c = sep then [] :: p :: rest else (c :: p) :: rest
    | [] => if c = sep then [[], []] else [[c]]

/-- Model of Python `sep.join(parts)` for a one-character separator. -/
def joinSep (sep : Char) : List (List Char) → List Char
  | [] => []
  | [p] => p
  | p :: q :: rest => p ++ sep :: joinSep sep (q :: rest)

/-- Characters stripped by Python `str.strip()` with no argument. -/
def isPySpace (c : Char) : Bool :=
  c = ' ' || c = '\t' || c = '\n' || c = '\r' || c = Char.ofNat 11 || c = Char.ofNat 12

/-- Model of Python `str.strip()`: drop whitespace from both ends. -/
def pyStrip (cs : List Char) : List Char :=
  ((cs.dropWhile isPySpace).reverse.dropWhile isPySpace).reverse

/-- Model of `str.lower()` on the ASCII range (Dropbox paths). -/
def pyLower (s : String) : String := String.mk (s.data.map Char.toLower)

/-- Model of `os.path.dirname` on a normalized POSIX relative path
(no duplicated or trailing slashes): everything before the last slash,
or the empty string when there is no slash. -/
def dirnameChars (p : List Char) : List Char :=
  ((p.reverse.dropWhile (fun c => c != '/')).drop 1).reverse

/-- Model of `os.path.basename` on a normalized POSIX path:
everything after the last slash. -/
def basenameChars (p : List Char) : List Char :=
  (p.reverse.takeWhile (fun c => c != '/')).reverse

/-- Model of `os.path.splitext(b)[0]` for a basename `b` (no slashes):
the part before the last dot, except that a basename whose characters
before the last dot are all dots is returned whole. -/
def splitextRoot (b : List Char) : List Char :=
  let r := b.reverse
  let ext := r.takeWhile (fun c => c != '.')
  if ext.length = b.length then b
  else
    let root := (r.drop (ext.length + 1)).reverse
    if root.any (fun c => c != '.') then root else b

/-- Nonempty path segments of a POSIX path (model of
`[x for x in p.split(sep) if x]` inside `posixpath.relpath`). -/
def pathSegs (p : String) : List (List Char) :=
  (splitOnChar '/' p.data).filter (fun s => !s.isEmpty)

/-- Length of the element-wise common segment run of two segment lists
(model of `os.path.commonprefix` on the two split paths). -/
def commonSegLen : List (List Char) → List (List Char) → Nat
  | a :: as, b :: bs => if a = b then commonSegLen as bs + 1 else 0
  | _, _ => 0

/-- Model of `os.path.relpath(p, start)` for normalized absolute POSIX
paths: drop the common leading segments, prepend one `..` per remaining
segment of `start`, and rejoin; the empty result is the current directory. -/
def relpath (p start : String) : String :=
  let ss := pathSegs start
  let ps := pathSegs p
  let i := commonSegLen ss ps
  let rel := List.replicate (ss.length - i) ['.', '.'] ++ ps.drop i
  if rel.isEmpty then "." else String.mk (joinSep '/' rel)

/-- Model of POSIX `os.path.join(a, b)` for two components. -/
def pyJoin (a b : String) : String :=
  match b.data with
  | '/' :: _ => b
  | _ =>
    match a.data.reverse with
    | [] => b
    | '/' :: _ => String.mk (a.data ++ b.data)
    | _ => String.mk (a.data ++ '/' :: b.data)

/-- Model of `str.replace(chr(92), chr(47))`: replace every backslash
by a forward slash, character by character. -/
def replaceBackslash (s : String) : String :=
  String.mk (s.data.map (fun c => if c = '\\' then '/' else c))

/-! ## Data model -/

/-- A shared-link object as returned by the Dropbox SDK, restricted to the
two fields the script reads: `path_lower` (the path normalized to lower
case by Dropbox) and `url`. -/
structure SharedLink where
  path_lower : String
  url : String
deriving DecidableEq

/-- The view of an `EasyID3` metadata container used by the script:
`audio.get(k)` returns `None` when the frame is absent, else the list of
values, so each field is an `Option (List String)`. -/
structure Id3 where
  album : Option (List String)
  artist : Option (List String)
deriving DecidableEq

/-- One playlist row / cache value: the `[name, src, tags]` triple. -/
structure Entry where
  name : String
  src : String
  tags : String
deriving DecidableEq

/-- The in-memory `playlist_directory` cache: an insertion-ordered mapping
from local mp3 path to its `[name, src, tags]` triple (Python `dict`). -/
abbrev Cache := List (String × Entry)

/-- Python `dict` lookup (`k in d` and `d[k]`) on the cache. -/
def Cache.find? (dir : Cache) (k : String) : Option Entry :=
  (List.find? (fun p => p.1 == k) dir).map Prod.snd

/-- An observable remote operation: one `sharing_list_shared_links` call
or one `sharing_create_shared_link_with_settings` call, with its path. -/
inductive RemoteOp where
  | listLinks (path : String)
  | createLink (path : String)
deriving DecidableEq

/-- The external collaborators: the Dropbox SDK calls and the mutagen
`EasyID3` constructor.  Each may fail; the Python source never catches
those exceptions, so failures are modelled with `Except`. -/
structure Env where
  listLinks : String → Except String (List SharedLink)
  createLink : String → Except String SharedLink
  readId3 : String → Except String Id3

/-! ## Embedded source functions (`abovevtt_playlist_db.py`) -/

/-- The loop body of `get_existing_shared_link` (lines 62 to 65): return the
first listed link whose `path_lower` equals the lowered query path. -/
def findLinkLoop (target : String) : List SharedLink → Option SharedLink
  | [] => none
  | l :: ls => if l.path_lower = target then some l else findLinkLoop target ls

/-- Embedding of `get_existing_shared_link` (lines 52 to 67): list the shared links for
the path and scan for the first whose `path_lower` matches the lowered
query; also report the one remote list operation that was performed. -/
def get_existing_shared_link (env : Env) (mp3Filepath : String) :
    Except String (Option SharedLink × List RemoteOp) := do
  let links ← env.listLinks mp3Filepath
  pure (findLinkLoop (pyLower mp3Filepath) links, [RemoteOp.listLinks mp3Filepath])

/-- Embedding of `get_mp3_metadata` (lines 70 to 90): read the ID3 container, filter the
falsy album values, filter the falsy artist values, split each artist on
commas and strip each part, and return album values then artist names.
A missing container fails (the `EasyID3` constructor raises), and an absent
album or artist frame fails (`audio.get(k)` is `None` and the comprehension
iterating it raises `TypeError`); nothing in the source catches either. -/
def get_mp3_metadata (env : Env) (mp3Filepath : String) : Except String (List String) := do
  let audio ← env.readId3 mp3Filepath
  match audio.album with
  | none => Except.error "TypeError: NoneType object is not iterable"
  | some albumRaw =>
    let album := albumRaw.filter (fun s => s != "")
    match audio.artist with
    | none => Except.error "TypeError: NoneType object is not iterable"
    | some artistRaw =>
      let artists := artistRaw.filter (fun s => s != "")
      let artistTags := artists.flatMap
        (fun artist => (splitOnChar ',' artist.data).map (fun a => String.mk (pyStrip a)))
      pure (album ++ artistTags)

/-- Embedding of `get_or_create_shared_link` (lines 93 to 109): reuse an existing link
when one matches, otherwise create one; the returned trace records the
remote operations performed. -/
def get_or_create_shared_link (env : Env) (mp3Filepath : String) :
    Except String (SharedLink × List RemoteOp) := do
  let (existing, ops) ← get_existing_shared_link env mp3Filepath
  match existing with
  | some l => pure (l, ops)
  | none => do
    let l ← env.createLink mp3Filepath
    pure (l, ops ++ [RemoteOp.createLink mp3Filepath])

/-- The body of the per-file loop of `create_playlist` (lines 140 to 157):
for a cached path, take the cached triple; otherwise derive the tags from
the folder structure and the mp3 metadata, resolve the shared link, and
record the new triple in the directory.  Returns the emitted row, the
updated directory, and the remote operations performed for this file. -/
def processFile (env : Env) (dropboxRoot localRoot : String) (dir : Cache)
    (mp3File : String) : Except String (Entry × Cache × List RemoteOp) :=
  match Cache.find? dir mp3File with
  | some e => pure (e, dir, [])
  | none => do
    let relativePath := relpath mp3File localRoot
    let folderStructure :=
      (splitOnChar '/' (dirnameChars relativePath.data)).map String.mk
    let metaTags ← get_mp3_metadata env mp3File
    let tags := String.mk (joinSep '|' (((folderStructure ++ metaTags).dedup).map String.data))
    let name := String.mk (splitextRoot (basenameChars mp3File.data))
    let dropboxFilePath := replaceBackslash (pyJoin dropboxRoot relativePath)
    let (link, ops) ← get_or_create_shared_link env dropboxFilePath
    let e : Entry := { name := name, src := link.url, tags := tags }
    pure (e, dir ++ [(mp3File, e)], ops)

/-- The whole per-file loop of `create_playlist`: fold `processFile` over
the discovered files, accumulating rows, directory updates, and the remote
operation trace; the first uncaught exception aborts the loop. -/
def processFiles (env : Env) (dropboxRoot localRoot : String) :
    List String → Cache → Except String (List Entry × Cache × List RemoteOp)
  | [], dir => pure ([], dir, [])
  | f :: fs, dir => do
    let (e, dir1, ops) ← processFile env dropboxRoot localRoot dir f
    let (rest, dir2, opsRest) ← processFiles env dropboxRoot localRoot fs dir1
    pure (e :: rest, dir2, ops ++ opsRest)

/-- Model of `sorted(list(set(all_mp3_files)))` (line 138): the unique
discovered paths in ascending lexicographic order. -/
def sortedUnique (files : List String) : List String :=
  List.insertionSort (fun a b => strLe a b = true) files.dedup

/-- The observable outcome of a completed (non-raising) `create_playlist`
run: the accumulated rows, the final directory, the remote operation
trace, whether the playlist csv and the directory json were written, and
the warnings logged.  A normal return models a zero exit status. -/
structure RunResult where
  playlist : List Entry
  directory : Cache
  remoteOps : List RemoteOp
  csvWritten : Bool
  cacheWritten : Bool
  warnings : List String

/-- Embedding of `create_playlist` (lines 112 to 170): load the directory (given here as
`dir0`), discover and order the mp3 files, run the per-file loop, and
either warn and return without writing anything (empty playlist, lines 159
to 161) or write the csv rows and rewrite the directory json. -/
def create_playlist (env : Env) (dropboxRoot localRoot : String)
    (allMp3Files : List String) (dir0 : Cache) : Except String RunResult := do
  let mp3Files := sortedUnique allMp3Files
  let (playlist, dir, ops) ← processFiles env dropboxRoot localRoot mp3Files dir0
  if playlist.isEmpty then
    pure { playlist := [], directory := dir, remoteOps := ops,
           csvWritten := false, cacheWritten := false,
           warnings := ["No playlist created."] }
  else
    pure { playlist := playlist, directory := dir, remoteOps := ops,
           csvWritten := true, cacheWritten := true, warnings := [] }

/-! ## Cache file serialization (`json.dump(..., indent=2, sort_keys=True)`
and `json.load`, restricted to the cache shape: an object mapping strings
to arrays of exactly three strings).  The emitted text is pure ASCII
(`ensure_ascii` escaping), so characters coincide with bytes. -/

/-- Lowercase hexadecimal digit, as emitted by the Python json encoder. -/
def hexDigitChar (n : Nat) : Char :=
  if n < 10 then Char.ofNat (48 + n) else Char.ofNat (87 + n)

/-- Four-digit lowercase hexadecimal rendering of a code unit. -/
def hex4 (n : Nat) : List Char :=
  [hexDigitChar (n / 4096 % 16), hexDigitChar (n / 256 % 16),
   hexDigitChar (n / 16 % 16), hexDigitChar (n % 16)]

/-- The `ensure_ascii` escaping of one character: the two-character short
escapes, printable ASCII verbatim, `u` escapes for everything else, with
a surrogate pair for code points beyond the basic plane. -/
def escChar (c : Char) : List Char :=
  if c = '"' then ['\\', '"']
  else if c = '\\' then ['\\', '\\']
  else if c = '\n' then ['\\', 'n']
  else if c = '\r' then ['\\', 'r']
  else if c = '\t' then ['\\', 't']
  else if c = Char.ofNat 8 then ['\\', 'b']
  else if c = Char.ofNat 12 then ['\\', 'f']
  else if 32 ≤ c.toNat ∧ c.toNat ≤ 126 then [c]
  else if c.toNat < 65536 then '\\' :: 'u' :: hex4 c.toNat
  else
    ('\\' :: 'u' :: hex4 (55296 + (c.toNat - 65536) / 1024)) ++
    ('\\' :: 'u' :: hex4 (56320 + (c.toNat - 65536) % 1024))

/-- A json string literal: quote, escaped characters, quote. -/
def encStr (s : String) : List Char := '"' :: s.data.flatMap escChar ++ ['"']

/-- Indentation consisting of `n` spaces. -/
def sp (n : Nat) : List Char := List.replicate n ' '

/-- The rendering of one cache value, a three-string array at item
indent 4 with its closing bracket at indent 2. -/
def dumpValue (e : Entry) : List Char :=
  '[' :: '\n' :: sp 4 ++ encStr e.name ++ ',' :: '\n' :: sp 4 ++ encStr e.src
    ++ ',' :: '\n' :: sp 4 ++ encStr e.tags ++ '\n' :: sp 2 ++ [']']

/-- One object member: key, colon, space, value. -/
def dumpMember (p : String × Entry) : List Char :=
  encStr p.1 ++ ':' :: ' ' :: dumpValue p.2

/-- The members joined by a comma, a newline and the item indent. -/
def dumpMembers : List (String × Entry) → List Char
  | [] => []
  | [p] => dumpMember p
  | p :: q :: rest => dumpMember p ++ ',' :: '\n' :: sp 2 ++ dumpMembers (q :: rest)

/-- The key-sorted entry order used by `sort_keys=True`. -/
def sortByKey (m : List (String × Entry)) : List (String × Entry) :=
  List.insertionSort (fun a b => strLe a.1 b.1 = true) m

/-- Model of `json.dump(playlist_directory, f, indent=2, sort_keys=True)` (line 170):
the full serialized cache file. -/
def dumpJson (m : List (String × Entry)) : List Char :=
  match sortByKey m with
  | [] => ['{', '}']
  | p :: rest => '{' :: '\n' :: sp 2 ++ dumpMembers (p :: rest) ++ ['\n', '}']

/-- Json whitespace accepted between tokens by the parser. -/
def isJsonWs (c : Char) : Bool := c = ' ' || c = '\t' || c = '\n' || c = '\r'

/-- Skip leading json whitespace. -/
def skipWs : List Char → List Char
  | [] => []
  | c :: r => if isJsonWs c then skipWs r else c :: r

/-- Numeric value of one hexadecimal digit, either case. -/
def hexVal? (c : Char) : Option Nat :=
  if 48 ≤ c.toNat ∧ c.toNat ≤ 57 then some (c.toNat - 48)
  else if 97 ≤ c.toNat ∧ c.toNat ≤ 102 then some (c.toNat - 87)
  else if 65 ≤ c.toNat ∧ c.toNat ≤ 70 then some (c.toNat - 55)
  else none

/-- Numeric value of a four-digit hexadecimal code unit. -/
def hexVal4? (a b c d : Char) : Option Nat := do
  let va ← hexVal? a
  let vb ← hexVal? b
  let vc ← hexVal? c
  let vd ← hexVal? d
  pure (((va * 16 + vb) * 16 + vc) * 16 + vd)

/-- The two-character escapes accepted after a backslash. -/
def simpleEsc? (c : Char) : Option Char :=
  if c = '"' then some '"'
  else if c = '\\' then some '\\'
  else if c = '/' then some '/'
  else if c = 'n' then some '\n'
  else if c = 'r' then some '\r'
  else if c = 't' then some '\t'
  else if c = 'b' then some (Char.ofNat 8)
  else if c = 'f' then some (Char.ofNat 12)
  else none

/-- A scalar code point as a character; a lone surrogate code unit is
rejected (the Lean character type cannot hold it, and the serializer
never emits one outside a pair). -/
def charFromCode? (v : Nat) : Option Char :=
  if h : v.isValidChar then some (Char.ofNatAux v h) else none

/-- The body of a json string literal after its opening quote: raw
characters and escapes up to the closing quote, combining surrogate
pairs, returning the decoded characters and the remaining input.  The
fuel, one unit per decoded character, keeps the recursion structural; it
is instantiated above the input length. -/
def parseStrBody : Nat → List Char → Option (List Char × List Char)
  | 0, _ => none
  | _, [] => none
  | fuel + 1, c :: r =>
    if c = '"' then some ([], r)
    else if c = '\\' then
      match r with
      | [] => none
      | e :: r1 =>
        if e = 'u' then
          match r1 with
          | a :: b :: c2 :: d :: r2 =>
            (hexVal4? a b c2 d).bind fun v =>
              if 55296 ≤ v ∧ v < 56320 then
                match r2 with
                | u1 :: u2 :: a2 :: b2 :: c3 :: d2 :: r3 =>
                  if u1 = '\\' ∧ u2 = 'u' then
                    (hexVal4? a2 b2 c3 d2).bind fun w =>
                      if 56320 ≤ w ∧ w < 57344 then
                        (charFromCode? (65536 + (v - 55296) * 1024 + (w - 56320))).bind
                          fun ch => (parseStrBody fuel r3).map fun p => (ch :: p.1, p.2)
                      else none
                  else none
                | _ => none
              else
                (charFromCode? v).bind fun ch =>
                  (parseStrBody fuel r2).map fun p => (ch :: p.1, p.2)
          | _ => none
        else
          (simpleEsc? e).bind fun ch =>
            (parseStrBody fuel r1).map fun p => (ch :: p.1, p.2)
    else if c.toNat < 32 then none
    else (parseStrBody fuel r).map fun p => (c :: p.1, p.2)

/-- A json string literal, including its opening quote. -/
def parseString (fuel : Nat) : List Char → Option (List Char × List Char)
  | [] => none
  | c :: r => if c = '"' then parseStrBody fuel r else none

/-- Require a specific character at the head of the input. -/
def expectChar (c : Char) (cs : List Char) : Option (List Char) :=
  match cs with
  | [] => none
  | d :: r => if d = c then some r else none

/-- One cache value: an array of exactly three json strings. -/
def parseValue3 (fuel : Nat) (cs : List Char) : Option (Entry × List Char) := do
  let r0 ← expectChar '[' cs
  let (s1, r1) ← parseString fuel (skipWs r0)
  let r2 ← expectChar ',' (skipWs r1)
  let (s2, r3) ← parseString fuel (skipWs r2)
  let r4 ← expectChar ',' (skipWs r3)
  let (s3, r5) ← parseString fuel (skipWs r4)
  let r6 ← expectChar ']' (skipWs r5)
  pure ({ name := String.mk s1, src := String.mk s2, tags := String.mk s3 }, r6)

/-- The members of a nonempty object, starting at the first key and
consuming the closing brace; the fuel bounds the recursion and is
instantiated above the input length. -/
def parseMembers (sfuel : Nat) : Nat → List Char → Option (List (String × Entry) × List Char)
  | 0, _ => none
  | fuel + 1, cs => do
    let (k, r1) ← parseString sfuel cs
    let r2 ← expectChar ':' (skipWs r1)
    let (v, r3) ← parseValue3 sfuel (skipWs r2)
    match skipWs r3 with
    | [] => none
    | c :: r4 =>
      if c = ',' then do
        let (rest, r5) ← parseMembers sfuel fuel (skipWs r4)
        pure ((String.mk k, v) :: rest, r5)
      else if c = '}' then pure ([(String.mk k, v)], r4)
      else none

/-- Model of `json.load` (line 135) restricted to the cache shape: one object of
three-string arrays followed only by whitespace, returning the entries
in file order (the order Python preserves in the loaded `dict`). -/
def loadJson (cs : List Char) : Option (List (String × Entry)) := do
  let r0 ← expectChar '{' (skipWs cs)
  match skipWs r0 with
  | [] => none
  | c :: r1 =>
    if c = '}' then if (skipWs r1).isEmpty then some [] else none
    else do
      let (es, r2) ← parseMembers (cs.length + 1) (cs.length + 1) (c :: r1)
      if (skipWs r2).isEmpty then some es else none

/-! ## Sample environments used by concrete witnesses -/

/-- A remote and metadata environment where every call succeeds: no
pre-existing shared links, link creation succeeds with a url derived from
the path, and every file carries the album and artist of the scenario in
the specification. -/
def okEnv : Env where
  listLinks := fun _ => Except.ok []
  createLink := fun p => Except.ok { path_lower := pyLower p, url := "https://dbx/s/" ++ p }
  readId3 := fun _ =>
    Except.ok { album := some ["Greatest Hits"], artist := some ["Artist A, Artist B"] }

/-- Like `okEnv`, but every metadata read fails the way the `EasyID3`
constructor does on a file without an ID3 header. -/
def noMetaEnv : Env :=
  { okEnv with readId3 := fun _ => Except.error "ID3NoHeaderError" }

/-- Like `okEnv`, but link creation fails the way the SDK does on an API
error. -/
def badCreateEnv : Env :=
  { okEnv with createLink := fun _ => Except.error "ApiError" }

/-- Two candidate links, the second of which matches the lowered query
path of the case-sensitivity witness. -/
def caseLinks : List SharedLink :=
  [{ path_lower := "/other.mp3", url := "https://dbx/s/other" },
   { path_lower := "/d/rock/song.mp3", url := "https://dbx/s/existing" }]

/-- An environment whose listing returns `caseLinks` for every query. -/
def caseEnv : Env :=
  { okEnv with listLinks := fun _ => Except.ok caseLinks }

/-! ## Order lemmas for the lexicographic string comparison -/

theorem charListLt_irrefl (as : List Char) : charListLt as as = false := by
  induction as with
  | nil => rfl
  | cons a as ih => simp [charListLt, ih]

theorem charListLt_asymm {as bs : List Char} (h : charListLt as bs = true) :
    charListLt bs as = false := by
  induction as generalizing bs with
  | nil =>
    cases bs with
    | nil => simp [charListLt] at h
    | cons b bs => rfl
  | cons a as ih =>
    cases bs with
    | nil => simp [charListLt] at h
    | cons b bs =>
      by_cases hab : a < b
      · simp [charListLt, hab, asymm hab]
      · by_cases hba : b < a
        · simp [charListLt, hab, hba] at h
        · simp only [charListLt, if_neg hab, if_neg hba] at h
          simp only [charListLt, if_neg hab, if_neg hba]
          exact ih h

theorem charEq_of_not_lt {a b : Char} (h1 : ¬a < b) (h2 : ¬b < a) : a = b :=
  le_antisymm (not_lt.mp h2) (not_lt.mp h1)

theorem charListLt_tri (as : List Char) : ∀ bs,
    charListLt as bs = true ∨ as = bs ∨ charListLt bs as = true := by
  induction as with
  | nil =>
    intro bs
    cases bs with
    | nil => exact Or.inr (Or.inl rfl)
    | cons b bs => exact Or.inl rfl
  | cons a as ih =>
    intro bs
    cases bs with
    | nil => exact Or.inr (Or.inr rfl)
    | cons b bs =>
      rcases lt_trichotomy a b with hab | hab | hab
      · exact Or.inl (by simp [charListLt, hab])
      · subst hab
        rcases ih bs with h | h | h
        · exact Or.inl (by simp [charListLt, h])
        · exact Or.inr (Or.inl (by rw [h]))
        · exact Or.inr (Or.inr (by simp [charListLt, h]))
      · exact Or.inr (Or.inr (by simp [charListLt, hab]))

theorem charListLt_trans {as : List Char} : ∀ {bs cs : List Char},
    charListLt as bs = true → charListLt bs cs = true → charListLt as cs = true := by
  induction as with
  | nil =>
    intro bs cs h1 h2
    cases bs with
    | nil => exact h2
    | cons b bs =>
      cases cs with
      | nil => simp [charListLt] at h2
      | cons c cs => rfl
  | cons a as ih =>
    intro bs cs h1 h2
    cases bs with
    | nil => simp [charListLt] at h1
    | cons b bs =>
      cases cs with
      | nil => simp [charListLt] at h2
      | cons c cs =>
        by_cases hab : a < b
        · by_cases hbc : b < c
          · simp [charListLt, lt_trans hab hbc]
          · by_cases hcb : c < b
            · simp [charListLt, hbc, hcb] at h2
            · have : b = c := charEq_of_not_lt hbc hcb
              subst this
              simp [charListLt, hab]
        · by_cases hba : b < a
          · simp [charListLt, hab, hba] at h1
          · have : a = b := charEq_of_not_lt hab hba
            subst this
            simp only [charListLt, if_neg hab, if_neg hba] at h1
            by_cases hbc : a < c
            · simp [charListLt, hbc]
            · by_cases hcb : c < a
              · simp [charListLt, hbc, hcb] at h2
              · simp only [charListLt, if_neg hbc, if_neg hcb] at h2 ⊢
                exact ih h1 h2

theorem string_eq_of_data_eq {a b : String} (h : a.data = b.data) : a = b := by
  cases a
  cases b
  exact congrArg String.mk (by simpa using h)

theorem strLe_total (a b : String) : strLe a b = true ∨ strLe b a = true := by
  by_cases h : strLt b a = true
  · have : charListLt a.data b.data = false := charListLt_asymm h
    exact Or.inr (by simp [strLe, strLt, this])
  · exact Or.inl (by simp [strLe]; exact Bool.not_eq_true _ ▸ (by simpa using h))

theorem strLe_trans {a b c : String} (h1 : strLe a b = true) (h2 : strLe b c = true) :
    strLe a c = true := by
  simp only [strLe, Bool.not_eq_true'] at h1 h2 ⊢
  by_contra hca
  have hca : charListLt c.data a.data = true := by
    cases h : strLt c a
    · exact absurd (by simpa [strLt] using h) hca
    · simpa [strLt] using h
  rcases charListLt_tri b.data c.data with h | h | h
  · have := charListLt_trans h (by simpa [strLt] using hca)
    simp [strLt, this] at h1
  · rw [← h] at hca
    simp [strLt, hca] at h1
  · simp [strLt, h] at h2

theorem strLt_iff {a b : String} :
    strLt a b = true ↔ strLe a b = true ∧ a ≠ b := by
  constructor
  · intro h
    refine ⟨by simp [strLe, strLt, charListLt_asymm (by simpa [strLt] using h)], ?_⟩
    intro hab
    subst hab
    simp [strLt, charListLt_irrefl] at h
  · rintro ⟨hle, hne⟩
    rcases charListLt_tri a.data b.data with h | h | h
    · simpa [strLt] using h
    · exact absurd (string_eq_of_data_eq h) hne
    · simp [strLe, strLt, h] at hle

instance : IsTotal String (fun a b => strLe a b = true) := ⟨strLe_total⟩

instance : IsTrans String (fun a b => strLe a b = true) := ⟨fun _ _ _ => strLe_trans⟩

instance : IsTotal (String × Entry) (fun a b => strLe a.1 b.1 = true) :=
  ⟨fun a b => strLe_total a.1 b.1⟩

instance : IsTrans (String × Entry) (fun a b => strLe a.1 b.1 = true) :=
  ⟨fun _ _ _ => strLe_trans⟩

/-! ## Cache lookup lemmas -/

theorem cache_find?_cons (p : String × Entry) (dir : Cache) (k : String) :
    Cache.find? (p :: dir) k = if p.1 = k then some p.2 else Cache.find? dir k := by
  simp only [Cache.find?, List.find?]
  by_cases h : p.1 = k
  · simp [h]
  · have hb : (p.1 == k) = false := by simpa using h
    simp [hb, h]

theorem cache_find?_append_some {dir : Cache} {k : String} {v : Entry}
    (h : Cache.find? dir k = some v) (l : Cache) :
    Cache.find? (dir ++ l) k = some v := by
  induction dir with
  | nil => simp [Cache.find?] at h
  | cons p dir ih =>
    rw [cache_find?_cons] at h
    rw [List.cons_append, cache_find?_cons]
    by_cases hp : p.1 = k
    · simpa [hp] using h
    · rw [if_neg hp] at h ⊢
      exact ih h

theorem cache_find?_append_none {dir : Cache} {k : String}
    (h : Cache.find? dir k = none) (l : Cache) :
    Cache.find? (dir ++ l) k = Cache.find? l k := by
  induction dir with
  | nil => rfl
  | cons p dir ih =>
    rw [cache_find?_cons] at h
    rw [List.cons_append, cache_find?_cons]
    by_cases hp : p.1 = k
    · simp [hp] at h
    · rw [if_neg hp] at h ⊢
      exact ih h

/-! ## Per-file loop lemmas -/

theorem processFile_cached {env : Env} {dr lr : String} {dir : Cache} {f : String}
    {e : Entry} (h : Cache.find? dir f = some e) :
    processFile env dr lr dir f = Except.ok (e, dir, []) := by
  simp [processFile, h, pure, Except.pure]

theorem processFile_ok_find_self {env : Env} {dr lr : String} {dir : Cache} {f : String}
    {e : Entry} {dir1 : Cache} {ops : List RemoteOp}
    (h : processFile env dr lr dir f = Except.ok (e, dir1, ops)) :
    Cache.find? dir1 f = some e ∧
      (∀ k v, Cache.find? dir k = some v → Cache.find? dir1 k = some v) := by
  cases hc : Cache.find? dir f with
  | some e' =>
    rw [processFile_cached hc] at h
    injection h with h
    obtain ⟨rfl, rfl, rfl⟩ : e' = e ∧ dir = dir1 ∧ ([] : List RemoteOp) = ops := by
      simpa [Prod.ext_iff] using h
    exact ⟨hc, fun k v hv => hv⟩
  | none =>
    simp only [processFile, hc] at h
    cases hm : get_mp3_metadata env f with
    | error s => rw [hm] at h; simp [Bind.bind, Except.bind] at h
    | ok mt =>
      rw [hm] at h
      simp only [Bind.bind, Except.bind] at h
      cases hl : get_or_create_shared_link env
          (replaceBackslash (pyJoin dr (relpath f lr))) with
      | error s => rw [hl] at h; simp at h
      | ok lo =>
        obtain ⟨link, lops⟩ := lo
        rw [hl] at h
        simp only [pure, Except.pure, Except.ok.injEq, Prod.mk.injEq] at h
        obtain ⟨he, hdir, -⟩ := h
        subst he
        subst hdir
        constructor
        · rw [cache_find?_append_none hc, cache_find?_cons]
          simp
        · intro k v hv
          exact cache_find?_append_some hv _

theorem processFiles_ok_spec {env : Env} {dr lr : String} :
    ∀ {fs : List String} {dir : Cache} {rows : List Entry} {dir2 : Cache}
      {ops : List RemoteOp},
      processFiles env dr lr fs dir = Except.ok (rows, dir2, ops) →
      List.Forall₂ (fun f e => Cache.find? dir2 f = some e) fs rows ∧
        (∀ k v, Cache.find? dir k = some v → Cache.find? dir2 k = some v) := by
  intro fs
  induction fs with
  | nil =>
    intro dir rows dir2 ops h
    simp only [processFiles, pure, Except.pure, Except.ok.injEq, Prod.mk.injEq] at h
    obtain ⟨hr, hd, -⟩ := h
    subst hr
    subst hd
    exact ⟨List.Forall₂.nil, fun k v hv => hv⟩
  | cons f fs ih =>
    intro dir rows dir2 ops h
    simp only [processFiles] at h
    cases h1 : processFile env dr lr dir f with
    | error s => rw [h1] at h; simp [Bind.bind, Except.bind] at h
    | ok t1 =>
      obtain ⟨e, dir1, ops1⟩ := t1
      rw [h1] at h
      simp only [Bind.bind, Except.bind] at h
      cases h2 : processFiles env dr lr fs dir1 with
      | error s => rw [h2] at h; simp at h
      | ok t2 =>
        obtain ⟨rest, dirF, opsRest⟩ := t2
        rw [h2] at h
        simp only [pure, Except.pure, Except.ok.injEq, Prod.mk.injEq] at h
        obtain ⟨hr, hd, -⟩ := h
        subst hr
        subst hd
        obtain ⟨hself, hmono1⟩ := processFile_ok_find_self h1
        obtain ⟨hall, hmono2⟩ := ih h2
        refine ⟨List.Forall₂.cons (hmono2 _ _ hself) hall, fun k v hv => hmono2 _ _ (hmono1 _ _ hv)⟩

theorem processFiles_all_cached {env : Env} {dr lr : String} :
    ∀ {fs : List String} {dir : Cache} {rows : List Entry},
      List.Forall₂ (fun f e => Cache.find? dir f = some e) fs rows →
      processFiles env dr lr fs dir = Except.ok (rows, dir, []) := by
  intro fs
  induction fs with
  | nil =>
    intro dir rows h
    cases h
    rfl
  | cons f fs ih =>
    intro dir rows h
    cases h with
    | cons hf hrest =>
      simp only [processFiles, processFile_cached hf, Bind.bind, Except.bind,
        ih hrest, pure, Except.pure]
      rfl

/-! ## Run-level lemmas -/

theorem create_playlist_ok_spec {env : Env} {dr lr : String} {files : List String}
    {dir0 : Cache} {res : RunResult}
    (h : create_playlist env dr lr files dir0 = Except.ok res) :
    processFiles env dr lr (sortedUnique files) dir0 =
        Except.ok (res.playlist, res.directory, res.remoteOps) ∧
      ((res.playlist = [] ∧ res.csvWritten = false ∧ res.cacheWritten = false ∧
          res.warnings = ["No playlist created."]) ∨
        (res.playlist ≠ [] ∧ res.csvWritten = true ∧ res.cacheWritten = true ∧
          res.warnings = [])) := by
  cases hp : processFiles env dr lr (sortedUnique files) dir0 with
  | error s => simp [create_playlist, hp, Bind.bind, Except.bind] at h
  | ok t =>
    obtain ⟨rows, dir, ops⟩ := t
    simp only [create_playlist, hp, Bind.bind, Except.bind] at h
    by_cases he : rows.isEmpty
    · rw [if_pos he] at h
      simp only [pure, Except.pure, Except.ok.injEq] at h
      have hrows : rows = [] := List.isEmpty_iff.mp he
      subst hrows
      subst h
      exact ⟨rfl, Or.inl ⟨rfl, rfl, rfl, rfl⟩⟩
    · rw [if_neg he] at h
      simp only [pure, Except.pure, Except.ok.injEq] at h
      subst h
      exact ⟨rfl, Or.inr ⟨fun hr => he (List.isEmpty_iff.mpr hr), rfl, rfl, rfl⟩⟩

theorem sortedUnique_mem (files : List String) (p : String) :
    p ∈ sortedUnique files ↔ p ∈ files := by
  unfold sortedUnique
  rw [List.Perm.mem_iff (List.perm_insertionSort _ _)]
  exact List.mem_dedup

theorem sortedUnique_nodup (files : List String) : (sortedUnique files).Nodup :=
  (List.perm_insertionSort _ files.dedup).symm.nodup (List.nodup_dedup files)

theorem sortedUnique_sorted (files : List String) :
    (sortedUnique files).Pairwise (fun a b => strLt a b = true) := by
  have hs : (sortedUnique files).Pairwise (fun a b => strLe a b = true) :=
    List.sorted_insertionSort _ _
  have hn : (sortedUnique files).Pairwise (fun a b => a ≠ b) := sortedUnique_nodup files
  exact (hs.and hn).imp fun h => strLt_iff.mpr ⟨h.1, h.2⟩

/-- A sample cached entry used by concrete witnesses. -/
def e0 : Entry := { name := "a", src := "https://dbx/s/a", tags := "t" }

/-! ## C1 -/

/-- C1: for every file path that is already a key of the loaded cache, the
per-file loop body emits exactly the cached `(name, link, tags)` triple as
the playlist row, leaves the cache unchanged, and performs no remote
operation for that file (the trace of list and create calls is empty). -/
theorem C1_cached_path_row_from_cache_no_remote (env : Env)
    (dropboxRoot localRoot : String) (dir : Cache) (f : String) (e : Entry)
    (h : Cache.find? dir f = some e) :
    processFile env dropboxRoot localRoot dir f = Except.ok (e, dir, []) :=
  processFile_cached h

/-- Witness for C1 at a concrete cached file. -/
theorem C1_witness :
    Cache.find? [("/r/a.mp3", e0)] "/r/a.mp3" = some e0 ∧
      processFile okEnv "/d" "/r" [("/r/a.mp3", e0)] "/r/a.mp3" =
        Except.ok (e0, [("/r/a.mp3", e0)], []) :=
  ⟨rfl, C1_cached_path_row_from_cache_no_remote okEnv "/d" "/r" _ _ _ rfl⟩

/-! ## C10 -/

/-- C10: on every run that completes normally, every key of the loaded
cache is still present in the final cache (the one rewritten to disk at
the end when anything is written) with an unchanged value: the run only
ever adds entries, so stale entries persist. -/
theorem C10_loaded_cache_entries_never_removed_or_overwritten (env : Env)
    (dropboxRoot localRoot : String) (files : List String) (dir0 : Cache)
    (res : RunResult) (k : String) (e : Entry)
    (h : create_playlist env dropboxRoot localRoot files dir0 = Except.ok res)
    (hk : Cache.find? dir0 k = some e) :
    Cache.find? res.directory k = some e :=
  (processFiles_ok_spec (create_playlist_ok_spec h).1).2 k e hk

/-! ## C2 -/

/-- C2: a second run on the same discovered file set, starting from the
cache state left by a completed first run, returns the identical playlist
(and the same written files and warnings) while performing zero remote
operations. -/
theorem C2_second_run_identical_playlist_zero_remote_ops (env : Env)
    (dropboxRoot localRoot : String) (files : List String) (dir0 : Cache)
    (res1 : RunResult)
    (h1 : create_playlist env dropboxRoot localRoot files dir0 = Except.ok res1) :
    create_playlist env dropboxRoot localRoot files res1.directory =
      Except.ok { res1 with remoteOps := [] } := by
  obtain ⟨hp, hshape⟩ := create_playlist_ok_spec h1
  have hall := (processFiles_ok_spec hp).1
  have h2 : processFiles env dropboxRoot localRoot (sortedUnique files) res1.directory =
      Except.ok (res1.playlist, res1.directory, []) := processFiles_all_cached hall
  obtain ⟨pl, dir, ops, cw, dw, ws⟩ := res1
  simp only at h2 ⊢
  rcases hshape with ⟨hpl, hcw, hdw, hws⟩ | ⟨hpl, hcw, hdw, hws⟩ <;>
    simp only at hpl hcw hdw hws
  · subst hpl; subst hcw; subst hdw; subst hws
    simp [create_playlist, h2, Bind.bind, Except.bind, pure, Except.pure]
  · subst hcw; subst hdw; subst hws
    have hne : pl.isEmpty = false := by
      cases pl with
      | nil => exact absurd rfl hpl
      | cons a l => rfl
    simp [create_playlist, h2, Bind.bind, Except.bind, pure, Except.pure, hne]

/-! ## C3 -/

/-- C3: on every completed run over a non-empty discovered file list, the
playlist has exactly one row per unique local path and the rows follow the
unique paths in ascending lexicographic (code-point) order: there is a
path list covering exactly the discovered paths, without duplicates,
strictly lexicographically increasing, whose entries pair off positionally
with the emitted rows (each row being the final cache value of its path). -/
theorem C3_one_row_per_unique_path_in_lexicographic_order (env : Env)
    (dropboxRoot localRoot : String) (files : List String) (dir0 : Cache)
    (res : RunResult) (hne : files ≠ [])
    (h : create_playlist env dropboxRoot localRoot files dir0 = Except.ok res) :
    ∃ ps : List String,
      (∀ p, p ∈ ps ↔ p ∈ files) ∧ ps.Nodup ∧
      ps.Pairwise (fun a b => strLt a b = true) ∧
      List.Forall₂ (fun p e => Cache.find? res.directory p = some e) ps res.playlist :=
  ⟨sortedUnique files, fun p => sortedUnique_mem files p, sortedUnique_nodup files,
    sortedUnique_sorted files,
    (processFiles_ok_spec (create_playlist_ok_spec h).1).1⟩

/-! ## C7 -/

/-- C7: when the scan discovers zero audio files the accumulated row list
is empty, so the run writes no playlist file and no cache file, logs the
warning, and returns normally (modelling a zero exit status), for every
environment and every loaded cache. -/
theorem C7_zero_files_no_playlist_warning_success (env : Env)
    (dropboxRoot localRoot : String) (dir0 : Cache) :
    create_playlist env dropboxRoot localRoot [] dir0 =
      Except.ok { playlist := [], directory := dir0, remoteOps := [],
                  csvWritten := false, cacheWritten := false,
                  warnings := ["No playlist created."] } := rfl

/-! ## C9 -/

theorem findLinkLoop_split {t : String} :
    ∀ {ls : List SharedLink} {l : SharedLink}, l ∈ ls → l.path_lower = t →
      ∃ pre l0 post, ls = pre ++ l0 :: post ∧ l0.path_lower = t ∧
        (∀ x ∈ pre, x.path_lower ≠ t) ∧ findLinkLoop t ls = some l0 := by
  intro ls
  induction ls with
  | nil =>
    intro l h hl
    cases h
  | cons a ls ih =>
    intro l hmem hl
    by_cases ha : a.path_lower = t
    · exact ⟨[], a, ls, rfl, ha, by simp, by simp [findLinkLoop, ha]⟩
    · have hmem' : l ∈ ls := by
        rcases List.mem_cons.mp hmem with h | h
        · subst h; exact absurd hl ha
        · exact h
      obtain ⟨pre, l0, post, hsplit, h0, hpre, hfind⟩ := ih hmem' hl
      refine ⟨a :: pre, l0, post, by rw [hsplit, List.cons_append], h0, ?_, ?_⟩
      · intro x hx
        rcases List.mem_cons.mp hx with h | h
        · subst h; exact ha
        · exact hpre x h
      · simp [findLinkLoop, ha, hfind]

/-- C9: the existing-link lookup matches by case-insensitive comparison:
whenever the remote listing for a queried path returns a candidate whose
Dropbox-lowered path equals the lowered query (i.e. whose path differs
from the query only in letter case), the resolver adopts the first such
candidate and performs no create operation — its remote trace is the one
list call only. -/
theorem C9_case_insensitive_first_match_reused_no_create (env : Env)
    (q : String) (links : List SharedLink) (l : SharedLink)
    (hq : env.listLinks q = Except.ok links)
    (hmem : l ∈ links) (hl : l.path_lower = pyLower q) :
    ∃ pre l0 post, links = pre ++ l0 :: post ∧ l0.path_lower = pyLower q ∧
      (∀ x ∈ pre, x.path_lower ≠ pyLower q) ∧
      get_or_create_shared_link env q = Except.ok (l0, [RemoteOp.listLinks q]) := by
  obtain ⟨pre, l0, post, hs, h0, hpre, hfind⟩ := findLinkLoop_split hmem hl
  refine ⟨pre, l0, post, hs, h0, hpre, ?_⟩
  simp [get_or_create_shared_link, get_existing_shared_link, hq, Bind.bind,
    Except.bind, hfind, pure, Except.pure]

/-! ## C4: tag derivation -/

theorem string_mk_data (s : String) : String.mk s.data = s := by
  cases s
  rfl

theorem splitOnChar_ne_nil (sep : Char) (cs : List Char) : splitOnChar sep cs ≠ [] := by
  cases cs with
  | nil => simp [splitOnChar]
  | cons c r =>
    cases h : splitOnChar sep r with
    | nil => simp [splitOnChar, h]; split <;> simp
    | cons p rest => simp [splitOnChar, h]; split <;> simp

theorem splitOnChar_no_sep {sep : Char} :
    ∀ {p : List Char}, sep ∉ p → splitOnChar sep p = [p] := by
  intro p
  induction p with
  | nil => intro h; rfl
  | cons c p ih =>
    intro h
    have hc : ¬c = sep := fun hcs => h (hcs ▸ List.mem_cons_self c p)
    have hp : sep ∉ p := fun hm => h (List.mem_cons_of_mem c hm)
    simp [splitOnChar, ih hp, hc]

theorem splitOnChar_sep_cons (sep : Char) (rest : List Char) :
    splitOnChar sep (sep :: rest) = [] :: splitOnChar sep rest := by
  cases h : splitOnChar sep rest with
  | nil => exact absurd h (splitOnChar_ne_nil sep rest)
  | cons p r => simp [splitOnChar, h]

theorem splitOnChar_append_sep {sep : Char} :
    ∀ {p : List Char}, sep ∉ p → ∀ rest,
      splitOnChar sep (p ++ sep :: rest) = p :: splitOnChar sep rest := by
  intro p
  induction p with
  | nil =>
    intro _ rest
    simpa using splitOnChar_sep_cons sep rest
  | cons c p ih =>
    intro h rest
    have hc : ¬c = sep := fun hcs => h (hcs ▸ List.mem_cons_self c p)
    have hp : sep ∉ p := fun hm => h (List.mem_cons_of_mem c hm)
    rw [List.cons_append]
    have hrec := ih hp rest
    simp [splitOnChar, hrec, hc]

theorem splitOnChar_joinSep {sep : Char} :
    ∀ {ps : List (List Char)}, ps ≠ [] → (∀ p ∈ ps, sep ∉ p) →
      splitOnChar sep (joinSep sep ps) = ps := by
  intro ps
  induction ps with
  | nil =>
    intro h _
    exact absurd rfl h
  | cons p ps ih =>
    intro _ hfree
    cases ps with
    | nil => simpa [joinSep] using splitOnChar_no_sep (hfree p (by simp))
    | cons q ps' =>
      have h1 : sep ∉ p := hfree p (by simp)
      have h2 : ∀ x ∈ q :: ps', sep ∉ x := fun x hx => hfree x (List.mem_cons_of_mem p hx)
      rw [joinSep, splitOnChar_append_sep h1, ih (by simp) h2]

theorem list_toFinset_dedup (l : List String) : l.dedup.toFinset = l.toFinset := by
  apply Finset.ext
  intro a
  simp [List.mem_toFinset, List.mem_dedup]

/-- The folder-derived tags of line 145 to 146 as the specification
describes them: the segments of the directory part of the path relative to
the scan root — including the empty segment that arises for a file placed
directly in the root. -/
def specFolderTags (localRoot f : String) : List String :=
  (splitOnChar '/' (dirnameChars (relpath f localRoot).data)).map String.mk

/-- The album-derived tags: the non-falsy album metadata values. -/
def specAlbumTags (alb : List String) : List String :=
  alb.filter (fun s => s != "")

/-- The artist-derived tags: the comma-split, whitespace-trimmed
contributor names of the non-falsy artist metadata values; empty names
produced by the split itself are kept. -/
def specArtistTags (art : List String) : List String :=
  (art.filter (fun s => s != "")).flatMap
    (fun a => (splitOnChar ',' a.data).map (fun x => String.mk (pyStrip x)))

/-- The row produced for the counterexample file `/r/Song.mp3` placed
directly in the scan root: its tags string starts with the bar of an
empty folder-segment tag. -/
def rootSongEntry : Entry :=
  { name := "Song", src := "https://dbx/s//d/Song.mp3",
    tags := "|Greatest Hits|Artist A|Artist B" }

/-- C4 counterexample: for a file resolved fresh directly in the scan
root, the derived tag set contains the empty string — the empty
folder-segment tag is not discarded, contradicting the claim that all
empty values are discarded and that a root file contributes no empty
folder-segment tag. -/
theorem C4_counterexample_root_file_empty_tag :
    processFile okEnv "/d" "/r" [] "/r/Song.mp3" =
      Except.ok (rootSongEntry, [("/r/Song.mp3", rootSongEntry)],
        [RemoteOp.listLinks "/d/Song.mp3", RemoteOp.createLink "/d/Song.mp3"]) ∧
      "" ∈ (splitOnChar '|' rootSongEntry.tags.data).map String.mk := by
  exact ⟨rfl, by decide⟩

theorem tagJoin_toFinset (raw : List String) (hne : raw ≠ [])
    (hfree : ∀ t ∈ raw, ('|' : Char) ∉ t.data) :
    ((splitOnChar '|' (String.mk (joinSep '|' (raw.dedup.map String.data))).data).map
      String.mk).toFinset = raw.toFinset := by
  have hdne : raw.dedup ≠ [] := fun hnil => hne ((List.dedup_eq_nil _).mp hnil)
  have hfree2 : ∀ p ∈ raw.dedup.map String.data, ('|' : Char) ∉ p := by
    intro p hpmem
    obtain ⟨t, htmem, rfl⟩ := List.mem_map.mp hpmem
    exact hfree t (List.mem_dedup.mp htmem)
  have hsplit : splitOnChar '|' (joinSep '|' (raw.dedup.map String.data))
      = raw.dedup.map String.data :=
    splitOnChar_joinSep (fun hnil => hdne (List.map_eq_nil_iff.mp hnil)) hfree2
  have hdata : (String.mk (joinSep '|' (raw.dedup.map String.data))).data
      = joinSep '|' (raw.dedup.map String.data) := rfl
  rw [hdata, hsplit, List.map_map]
  have hfun : (String.mk ∘ String.data) = id := funext fun s => string_mk_data s
  rw [hfun, List.map_id, list_toFinset_dedup]

/-- C4 as amended: for every file resolved fresh whose metadata read
succeeds, the derived tag set (the components of the emitted tags string)
equals the union of the folder-path segments relative to the root, the
non-falsy album values, and the whitespace-trimmed comma-split artist
names of the non-falsy artist values, with duplicates collapsed —
emptiness filtering applies only to the raw album and artist values, so a
file directly in the scan root contributes an empty folder-segment tag
(provided no individual tag contains the bar separator). -/
theorem C4_amended_fresh_tag_set_is_union (env : Env) (dr lr : String)
    (dir : Cache) (f : String) (alb art : List String) (e : Entry)
    (dir1 : Cache) (ops : List RemoteOp)
    (hc : Cache.find? dir f = none)
    (hm : env.readId3 f = Except.ok { album := some alb, artist := some art })
    (hp : processFile env dr lr dir f = Except.ok (e, dir1, ops))
    (hbar : ∀ t ∈ specFolderTags lr f ++ specAlbumTags alb ++ specArtistTags art,
      ('|' : Char) ∉ t.data) :
    ((splitOnChar '|' e.tags.data).map String.mk).toFinset =
      (specFolderTags lr f).toFinset ∪ (specAlbumTags alb).toFinset ∪
        (specArtistTags art).toFinset := by
  have hmeta : get_mp3_metadata env f = Except.ok (specAlbumTags alb ++ specArtistTags art) := by
    simp [get_mp3_metadata, hm, Bind.bind, Except.bind, pure, Except.pure,
      specAlbumTags, specArtistTags]
  simp only [processFile, hc, hmeta, Bind.bind, Except.bind] at hp
  cases hl : get_or_create_shared_link env (replaceBackslash (pyJoin dr (relpath f lr))) with
  | error s => rw [hl] at hp; simp at hp
  | ok lo =>
    obtain ⟨link, lops⟩ := lo
    rw [hl] at hp
    simp only [pure, Except.pure, Except.ok.injEq, Prod.mk.injEq] at hp
    obtain ⟨he, -, -⟩ := hp
    subst he
    have hne : specFolderTags lr f ++ (specAlbumTags alb ++ specArtistTags art) ≠ [] := by
      intro h0
      rcases List.append_eq_nil.mp h0 with ⟨h1, -⟩
      exact splitOnChar_ne_nil '/' (dirnameChars (relpath f lr).data)
        (List.map_eq_nil_iff.mp h1)
    have hfree : ∀ t ∈ specFolderTags lr f ++ (specAlbumTags alb ++ specArtistTags art),
        ('|' : Char) ∉ t.data := by
      intro t ht
      rcases List.mem_append.mp ht with h | h
      · exact hbar t (List.mem_append.mpr (Or.inl (List.mem_append.mpr (Or.inl h))))
      · rcases List.mem_append.mp h with h2 | h2
        · exact hbar t (List.mem_append.mpr (Or.inl (List.mem_append.mpr (Or.inr h2))))
        · exact hbar t (List.mem_append.mpr (Or.inr h2))
    show ((splitOnChar '|' (String.mk (joinSep '|'
        (((specFolderTags lr f ++ (specAlbumTags alb ++ specArtistTags art)).dedup).map
          String.data))).data).map String.mk).toFinset = _
    rw [tagJoin_toFinset _ hne hfree, List.toFinset_append, List.toFinset_append,
      Finset.union_assoc]

/-- The row produced for the scenario file `Rock/Song.mp3` of the
specification. -/
def rockSongEntry : Entry :=
  { name := "Song", src := "https://dbx/s//d/Rock/Song.mp3",
    tags := "Rock|Greatest Hits|Artist A|Artist B" }

/-- Witness for the amended C4 at the scenario of the specification:
root contains `Rock/Song.mp3`, album tag Greatest Hits, artist tag
Artist A comma Artist B. -/
theorem C4_amended_witness :
    processFile okEnv "/d" "/r" [] "/r/Rock/Song.mp3" =
        Except.ok (rockSongEntry, [("/r/Rock/Song.mp3", rockSongEntry)],
          [RemoteOp.listLinks "/d/Rock/Song.mp3", RemoteOp.createLink "/d/Rock/Song.mp3"]) ∧
      ((splitOnChar '|' rockSongEntry.tags.data).map String.mk).toFinset =
        (specFolderTags "/r" "/r/Rock/Song.mp3").toFinset ∪
          (specAlbumTags ["Greatest Hits"]).toFinset ∪
          (specArtistTags ["Artist A, Artist B"]).toFinset :=
  ⟨rfl, C4_amended_fresh_tag_set_is_union okEnv "/d" "/r" [] "/r/Rock/Song.mp3"
    ["Greatest Hits"] ["Artist A, Artist B"] rockSongEntry
    [("/r/Rock/Song.mp3", rockSongEntry)]
    [RemoteOp.listLinks "/d/Rock/Song.mp3", RemoteOp.createLink "/d/Rock/Song.mp3"]
    rfl rfl rfl (by decide)⟩

/-! ## C5 and C6: the per-file error policy the code does not implement -/

/-- C5 (exhibit of the code defect): when the metadata of a discovered
file cannot be read, the uncaught exception from line 147 propagates out
of the whole run — the run aborts with the error instead of falling back
to folder-derived tags and continuing: with two discovered files and a
failing metadata reader, no playlist at all is produced. -/
theorem C5_metadata_failure_aborts_whole_run :
    create_playlist noMetaEnv "/d" "/r" ["/r/a.mp3", "/r/b.mp3"] [] =
      Except.error "ID3NoHeaderError" := rfl

/-- C6 (exhibit of the code defect): when link creation for one file
fails, the uncaught exception from line 154 propagates out of the whole
run — the file is not excluded-with-a-warning and the remaining files are
not processed: with two discovered files and a failing create call, no
playlist at all is produced. -/
theorem C6_remote_failure_aborts_whole_run :
    create_playlist badCreateEnv "/d" "/r" ["/r/a.mp3", "/r/b.mp3"] [] =
      Except.error "ApiError" := rfl

/-! ## Concrete witnesses for the run-level theorems -/

/-- The row resolved for `/r/a.mp3` under `okEnv`. -/
def aEntry : Entry :=
  { name := "a", src := "https://dbx/s//d/a.mp3",
    tags := "|Greatest Hits|Artist A|Artist B" }

/-- The row resolved for `/r/b.mp3` under `okEnv`. -/
def bEntry : Entry :=
  { name := "b", src := "https://dbx/s//d/b.mp3",
    tags := "|Greatest Hits|Artist A|Artist B" }

/-- The outcome of the first concrete run over the two-file library. -/
def run1Result : RunResult :=
  { playlist := [aEntry, bEntry],
    directory := [("/r/a.mp3", aEntry), ("/r/b.mp3", bEntry)],
    remoteOps := [RemoteOp.listLinks "/d/a.mp3", RemoteOp.createLink "/d/a.mp3",
                  RemoteOp.listLinks "/d/b.mp3", RemoteOp.createLink "/d/b.mp3"],
    csvWritten := true, cacheWritten := true, warnings := [] }

/-- Witness for C2 at a concrete two-file library: the first run resolves
both files, and the second run over the cache it left returns the same
playlist with an empty remote trace. -/
theorem C2_witness :
    create_playlist okEnv "/d" "/r" ["/r/b.mp3", "/r/a.mp3"] [] = Except.ok run1Result ∧
      create_playlist okEnv "/d" "/r" ["/r/b.mp3", "/r/a.mp3"] run1Result.directory =
        Except.ok { run1Result with remoteOps := [] } :=
  ⟨rfl, C2_second_run_identical_playlist_zero_remote_ops okEnv "/d" "/r"
    ["/r/b.mp3", "/r/a.mp3"] [] run1Result rfl⟩

/-- Witness for C3 at the same concrete library (listed out of order and
with a duplicate): the run emits one row per unique path in ascending
order. -/
theorem C3_witness :
    (["/r/b.mp3", "/r/a.mp3", "/r/b.mp3"] ≠ ([] : List String)) ∧
      create_playlist okEnv "/d" "/r" ["/r/b.mp3", "/r/a.mp3", "/r/b.mp3"] [] =
        Except.ok run1Result ∧
      (∃ ps : List String,
        (∀ p, p ∈ ps ↔ p ∈ ["/r/b.mp3", "/r/a.mp3", "/r/b.mp3"]) ∧ ps.Nodup ∧
        ps.Pairwise (fun a b => strLt a b = true) ∧
        List.Forall₂ (fun p e => Cache.find? run1Result.directory p = some e) ps
          run1Result.playlist) :=
  ⟨List.cons_ne_nil _ _, rfl,
    C3_one_row_per_unique_path_in_lexicographic_order okEnv "/d" "/r"
      ["/r/b.mp3", "/r/a.mp3", "/r/b.mp3"] [] run1Result (List.cons_ne_nil _ _) rfl⟩

/-- The outcome of the concrete run that starts from a cache holding a
stale entry for the vanished file `/r/z.mp3`. -/
def staleRunResult : RunResult :=
  { playlist := [aEntry],
    directory := [("/r/z.mp3", e0), ("/r/a.mp3", aEntry)],
    remoteOps := [RemoteOp.listLinks "/d/a.mp3", RemoteOp.createLink "/d/a.mp3"],
    csvWritten := true, cacheWritten := true, warnings := [] }

/-- Witness for C10: the stale cached entry for `/r/z.mp3` survives the
run unchanged. -/
theorem C10_witness :
    create_playlist okEnv "/d" "/r" ["/r/a.mp3"] [("/r/z.mp3", e0)] =
        Except.ok staleRunResult ∧
      Cache.find? [("/r/z.mp3", e0)] "/r/z.mp3" = some e0 ∧
      Cache.find? staleRunResult.directory "/r/z.mp3" = some e0 :=
  ⟨rfl, rfl,
    C10_loaded_cache_entries_never_removed_or_overwritten okEnv "/d" "/r"
      ["/r/a.mp3"] [("/r/z.mp3", e0)] staleRunResult "/r/z.mp3" e0 rfl rfl⟩

/-- Witness for C9: the query path differs from the listed candidate only
in letter case, the first candidate does not match, and the resolver
adopts the second candidate with a single list call and no create call. -/
theorem C9_witness :
    caseEnv.listLinks "/d/Rock/Song.mp3" = Except.ok caseLinks ∧
      { path_lower := "/d/rock/song.mp3", url := "https://dbx/s/existing" } ∈ caseLinks ∧
      ("/d/rock/song.mp3" : String) = pyLower "/d/Rock/Song.mp3" ∧
      (∃ pre l0 post, caseLinks = pre ++ l0 :: post ∧
        l0.path_lower = pyLower "/d/Rock/Song.mp3" ∧
        (∀ x ∈ pre, x.path_lower ≠ pyLower "/d/Rock/Song.mp3") ∧
        get_or_create_shared_link caseEnv "/d/Rock/Song.mp3" =
          Except.ok (l0, [RemoteOp.listLinks "/d/Rock/Song.mp3"])) :=
  ⟨rfl, by decide, rfl,
    C9_case_insensitive_first_match_reused_no_create caseEnv "/d/Rock/Song.mp3"
      caseLinks { path_lower := "/d/rock/song.mp3", url := "https://dbx/s/existing" }
      rfl (by decide) rfl⟩

/-! ## C8: round trip of the cache serialization -/

theorem hexVal_hexDigitChar (d : Nat) (h : d < 16) :
    hexVal? (hexDigitChar d) = some d := by
  interval_cases d <;> decide

theorem hexVal4_hex4 (v : Nat) (h : v < 65536) :
    hexVal4? (hexDigitChar (v / 4096 % 16)) (hexDigitChar (v / 256 % 16))
      (hexDigitChar (v / 16 % 16)) (hexDigitChar (v % 16)) = some v := by
  have h1 := hexVal_hexDigitChar (v / 4096 % 16) (Nat.mod_lt _ (by omega))
  have h2 := hexVal_hexDigitChar (v / 256 % 16) (Nat.mod_lt _ (by omega))
  have h3 := hexVal_hexDigitChar (v / 16 % 16) (Nat.mod_lt _ (by omega))
  have h4 := hexVal_hexDigitChar (v % 16) (Nat.mod_lt _ (by omega))
  simp only [hexVal4?, h1, h2, h3, h4, Bind.bind, Option.some_bind, pure]
  congr 1
  omega

theorem char_toNat_valid (c : Char) :
    c.toNat < 55296 ∨ (57343 < c.toNat ∧ c.toNat < 1114112) := c.valid

theorem charFromCode?_toNat (c : Char) : charFromCode? c.toNat = some c := by
  have hv : c.toNat.isValidChar := c.valid
  rw [charFromCode?, dif_pos hv]
  have hofn : Char.ofNatAux c.toNat hv = Char.ofNat c.toNat := by
    rw [Char.ofNat, dif_pos hv]
  rw [hofn, Char.ofNat_toNat]

theorem parseStrBody_esc_quote (fuel : Nat) (t : List Char) :
    parseStrBody (fuel + 1) ('\\' :: '"' :: t) =
      (parseStrBody fuel t).map fun p => ('"' :: p.1, p.2) := rfl

theorem parseStrBody_esc_backslash (fuel : Nat) (t : List Char) :
    parseStrBody (fuel + 1) ('\\' :: '\\' :: t) =
      (parseStrBody fuel t).map fun p => ('\\' :: p.1, p.2) := rfl

theorem parseStrBody_esc_n (fuel : Nat) (t : List Char) :
    parseStrBody (fuel + 1) ('\\' :: 'n' :: t) =
      (parseStrBody fuel t).map fun p => ('\n' :: p.1, p.2) := rfl

theorem parseStrBody_esc_r (fuel : Nat) (t : List Char) :
    parseStrBody (fuel + 1) ('\\' :: 'r' :: t) =
      (parseStrBody fuel t).map fun p => ('\r' :: p.1, p.2) := rfl

theorem parseStrBody_esc_t (fuel : Nat) (t : List Char) :
    parseStrBody (fuel + 1) ('\\' :: 't' :: t) =
      (parseStrBody fuel t).map fun p => ('\t' :: p.1, p.2) := rfl

theorem parseStrBody_esc_b (fuel : Nat) (t : List Char) :
    parseStrBody (fuel + 1) ('\\' :: 'b' :: t) =
      (parseStrBody fuel t).map fun p => (Char.ofNat 8 :: p.1, p.2) := rfl

theorem parseStrBody_esc_f (fuel : Nat) (t : List Char) :
    parseStrBody (fuel + 1) ('\\' :: 'f' :: t) =
      (parseStrBody fuel t).map fun p => (Char.ofNat 12 :: p.1, p.2) := rfl

theorem parseStrBody_raw {c : Char} (h1 : ¬c = '"') (h2 : ¬c = '\\')
    (h3 : ¬c.toNat < 32) (fuel : Nat) (t : List Char) :
    parseStrBody (fuel + 1) (c :: t) =
      (parseStrBody fuel t).map fun p => (c :: p.1, p.2) := by
  simp only [parseStrBody]
  rw [if_neg h1, if_neg h2, if_neg h3]

theorem parseStrBody_u (fuel : Nat) (a b c2 d : Char) (t : List Char) :
    parseStrBody (fuel + 1) ('\\' :: 'u' :: a :: b :: c2 :: d :: t) =
      ((hexVal4? a b c2 d).bind fun v =>
        if 55296 ≤ v ∧ v < 56320 then
          (match t with
           | u1 :: u2 :: a2 :: b2 :: c3 :: d2 :: r3 =>
             if u1 = '\\' ∧ u2 = 'u' then
               (hexVal4? a2 b2 c3 d2).bind fun w =>
                 if 56320 ≤ w ∧ w < 57344 then
                   (charFromCode? (65536 + (v - 55296) * 1024 + (w - 56320))).bind
                     fun ch => (parseStrBody fuel r3).map fun p => (ch :: p.1, p.2)
                 else none
             else none
           | _ => none)
        else
          (charFromCode? v).bind fun ch =>
            (parseStrBody fuel t).map fun p => (ch :: p.1, p.2)) := rfl

theorem parseStrBody_u_basic {a b c2 d : Char} {v : Nat}
    (hv : hexVal4? a b c2 d = some v) (hns : ¬(55296 ≤ v ∧ v < 56320))
    (fuel : Nat) (t : List Char) :
    parseStrBody (fuel + 1) ('\\' :: 'u' :: a :: b :: c2 :: d :: t) =
      (charFromCode? v).bind fun ch =>
        (parseStrBody fuel t).map fun p => (ch :: p.1, p.2) := by
  rw [parseStrBody_u, hv, Option.some_bind, if_neg hns]

theorem parseStrBody_u_pair {a b c2 d a2 b2 c3 d2 : Char} {v w : Nat}
    (hv : hexVal4? a b c2 d = some v) (hw : hexVal4? a2 b2 c3 d2 = some w)
    (hs1 : 55296 ≤ v ∧ v < 56320) (hs2 : 56320 ≤ w ∧ w < 57344)
    (fuel : Nat) (t : List Char) :
    parseStrBody (fuel + 1)
        ('\\' :: 'u' :: a :: b :: c2 :: d :: '\\' :: 'u' :: a2 :: b2 :: c3 :: d2 :: t) =
      (charFromCode? (65536 + (v - 55296) * 1024 + (w - 56320))).bind
        fun ch => (parseStrBody fuel t).map fun p => (ch :: p.1, p.2) := by
  rw [parseStrBody_u, hv, Option.some_bind, if_pos hs1]
  show (if ('\\' : Char) = '\\' ∧ ('u' : Char) = 'u' then
      (hexVal4? a2 b2 c3 d2).bind fun w =>
        if 56320 ≤ w ∧ w < 57344 then
          (charFromCode? (65536 + (v - 55296) * 1024 + (w - 56320))).bind
            fun ch => (parseStrBody fuel t).map fun p => (ch :: p.1, p.2)
        else none
    else none) = _
  rw [if_pos (by decide : ('\\' : Char) = '\\' ∧ ('u' : Char) = 'u'), hw,
    Option.some_bind, if_pos hs2]

theorem parseStrBody_escape (s : List Char) : ∀ (fuel : Nat) (rest : List Char),
    s.length < fuel →
    parseStrBody fuel (s.flatMap escChar ++ '"' :: rest) = some (s, rest) := by
  induction s with
  | nil =>
    intro fuel rest hf
    obtain ⟨f, rfl⟩ : ∃ f, fuel = f + 1 := ⟨fuel - 1, by omega⟩
    simp only [List.flatMap_nil, List.nil_append]
    rfl
  | cons c s ih =>
    intro fuel rest hf
    obtain ⟨f, rfl⟩ : ∃ f, fuel = f + 1 := ⟨fuel - 1, by omega⟩
    have hfs : s.length < f := by simpa using hf
    rw [List.flatMap_cons, List.append_assoc]
    by_cases h1 : c = '"'
    · subst h1
      rw [show escChar '"' = ['\\', '"'] from rfl, List.cons_append, List.cons_append,
        List.nil_append, parseStrBody_esc_quote, ih f rest hfs]
      rfl
    · by_cases h2 : c = '\\'
      · subst h2
        rw [show escChar '\\' = ['\\', '\\'] from rfl, List.cons_append, List.cons_append,
          List.nil_append, parseStrBody_esc_backslash, ih f rest hfs]
        rfl
      · by_cases h3 : c = '\n'
        · subst h3
          rw [show escChar '\n' = ['\\', 'n'] from rfl, List.cons_append, List.cons_append,
            List.nil_append, parseStrBody_esc_n, ih f rest hfs]
          rfl
        · by_cases h4 : c = '\r'
          · subst h4
            rw [show escChar '\r' = ['\\', 'r'] from rfl, List.cons_append,
              List.cons_append, List.nil_append, parseStrBody_esc_r, ih f rest hfs]
            rfl
          · by_cases h5 : c = '\t'
            · subst h5
              rw [show escChar '\t' = ['\\', 't'] from rfl, List.cons_append,
                List.cons_append, List.nil_append, parseStrBody_esc_t, ih f rest hfs]
              rfl
            · by_cases h6 : c = Char.ofNat 8
              · subst h6
                rw [show escChar (Char.ofNat 8) = ['\\', 'b'] from rfl, List.cons_append,
                  List.cons_append, List.nil_append, parseStrBody_esc_b, ih f rest hfs]
                rfl
              · by_cases h7 : c = Char.ofNat 12
                · subst h7
                  rw [show escChar (Char.ofNat 12) = ['\\', 'f'] from rfl,
                    List.cons_append, List.cons_append, List.nil_append,
                    parseStrBody_esc_f, ih f rest hfs]
                  rfl
                · by_cases h8 : 32 ≤ c.toNat ∧ c.toNat ≤ 126
                  · rw [show escChar c = [c] by
                        rw [escChar, if_neg h1, if_neg h2, if_neg h3, if_neg h4,
                          if_neg h5, if_neg h6, if_neg h7, if_pos h8],
                      List.cons_append, List.nil_append,
                      parseStrBody_raw h1 h2 (by omega), ih f rest hfs]
                    rfl
                  · by_cases h9 : c.toNat < 65536
                    · have hns : ¬(55296 ≤ c.toNat ∧ c.toNat < 56320) := by
                        rcases char_toNat_valid c with h | h <;> omega
                      rw [show escChar c = '\\' :: 'u' :: hex4 c.toNat by
                          rw [escChar, if_neg h1, if_neg h2, if_neg h3, if_neg h4,
                            if_neg h5, if_neg h6, if_neg h7, if_neg h8, if_pos h9],
                        hex4]
                      rw [List.cons_append, List.cons_append, List.cons_append,
                        List.cons_append, List.cons_append, List.cons_append,
                        List.nil_append]
                      rw [parseStrBody_u_basic (hexVal4_hex4 c.toNat h9) hns,
                        charFromCode?_toNat, Option.some_bind, ih f rest hfs]
                      rfl
                    · have hv : c.toNat < 1114112 := by
                        rcases char_toNat_valid c with h | h <;> omega
                      have hmod := Nat.mod_lt (c.toNat - 65536) (show 0 < 1024 by omega)
                      have hhi : 55296 + (c.toNat - 65536) / 1024 < 65536 := by omega
                      have hlo : 56320 + (c.toNat - 65536) % 1024 < 65536 := by omega
                      have hs1 : 55296 ≤ 55296 + (c.toNat - 65536) / 1024 ∧
                          55296 + (c.toNat - 65536) / 1024 < 56320 := by omega
                      have hs2 : 56320 ≤ 56320 + (c.toNat - 65536) % 1024 ∧
                          56320 + (c.toNat - 65536) % 1024 < 57344 := by omega
                      have hcode : 65536 + (55296 + (c.toNat - 65536) / 1024 - 55296) * 1024 +
                          (56320 + (c.toNat - 65536) % 1024 - 56320) = c.toNat := by omega
                      rw [show escChar c =
                            ('\\' :: 'u' :: hex4 (55296 + (c.toNat - 65536) / 1024)) ++
                            ('\\' :: 'u' :: hex4 (56320 + (c.toNat - 65536) % 1024)) by
                          rw [escChar, if_neg h1, if_neg h2, if_neg h3, if_neg h4,
                            if_neg h5, if_neg h6, if_neg h7, if_neg h8, if_neg h9],
                        hex4, hex4]
                      simp only [List.cons_append, List.nil_append, List.append_assoc]
                      rw [parseStrBody_u_pair (hexVal4_hex4 _ hhi) (hexVal4_hex4 _ hlo)
                        hs1 hs2, hcode, charFromCode?_toNat, Option.some_bind, ih f rest hfs]
                      rfl

theorem skipWs_cons_of_not_ws {c : Char} (h : isJsonWs c = false) (r : List Char) :
    skipWs (c :: r) = c :: r := by
  simp [skipWs, h]

theorem skipWs_newline (r : List Char) : skipWs ('\n' :: r) = skipWs r := by
  simp [skipWs, isJsonWs]

theorem skipWs_replicate_sp (n : Nat) (r : List Char) :
    skipWs (List.replicate n ' ' ++ r) = skipWs r := by
  induction n with
  | zero => rfl
  | succ n ih =>
    rw [List.replicate_succ, List.cons_append]
    simpa [skipWs, isJsonWs] using ih

theorem skipWs_sp (n : Nat) (r : List Char) : skipWs (sp n ++ r) = skipWs r :=
  skipWs_replicate_sp n r

theorem skipWs_encStr (s : String) (r : List Char) :
    skipWs (encStr s ++ r) = encStr s ++ r := by
  rw [encStr]
  simp only [List.cons_append]
  exact skipWs_cons_of_not_ws (show isJsonWs '"' = false from rfl) _

theorem expectChar_cons_self (c : Char) (r : List Char) : expectChar c (c :: r) = some r := by
  simp [expectChar]

theorem parseString_encStr (s : String) (fuel : Nat) (rest : List Char)
    (hf : s.data.length < fuel) :
    parseString fuel (encStr s ++ rest) = some (s.data, rest) := by
  rw [encStr]
  simp only [List.cons_append, List.append_assoc, List.nil_append]
  simp only [parseString, if_pos rfl]
  exact parseStrBody_escape s.data fuel rest hf

theorem parseValue3_dumpValue (e : Entry) (fuel : Nat) (rest : List Char)
    (h1 : e.name.data.length < fuel) (h2 : e.src.data.length < fuel)
    (h3 : e.tags.data.length < fuel) :
    parseValue3 fuel (dumpValue e ++ rest) = some (e, rest) := by
  rw [dumpValue]
  simp only [List.append_assoc, List.cons_append, List.nil_append]
  simp only [parseValue3, expectChar_cons_self, Bind.bind, Option.bind, skipWs_newline,
    skipWs_sp, skipWs_encStr, parseString_encStr e.name fuel _ h1,
    parseString_encStr e.src fuel _ h2, parseString_encStr e.tags fuel _ h3,
    skipWs_cons_of_not_ws (show isJsonWs ',' = false from rfl),
    skipWs_cons_of_not_ws (show isJsonWs ']' = false from rfl),
    string_mk_data, pure]

theorem skipWs_space (r : List Char) : skipWs (' ' :: r) = skipWs r := by
  simp [skipWs, isJsonWs]

theorem skipWs_dumpValue_append (e : Entry) (r : List Char) :
    skipWs (dumpValue e ++ r) = dumpValue e ++ r := by
  rw [dumpValue]
  simp only [List.cons_append]
  exact skipWs_cons_of_not_ws (show isJsonWs '[' = false from rfl) _

theorem skipWs_dumpMember_append (q : String × Entry) (r : List Char) :
    skipWs (dumpMember q ++ r) = dumpMember q ++ r := by
  rw [dumpMember, List.append_assoc]
  exact skipWs_encStr _ _

theorem skipWs_dumpMembers_cons (q : String × Entry) (es : List (String × Entry))
    (r : List Char) :
    skipWs (dumpMembers (q :: es) ++ r) = dumpMembers (q :: es) ++ r := by
  cases es with
  | nil =>
    show skipWs (dumpMember q ++ r) = dumpMember q ++ r
    exact skipWs_dumpMember_append q r
  | cons w ws =>
    simp only [dumpMembers, List.append_assoc]
    exact skipWs_dumpMember_append q _

theorem parseMembers_dumpMembers :
    ∀ (es : List (String × Entry)) (sfuel fuel : Nat) (rest : List Char),
      (∀ q ∈ es, q.1.data.length < sfuel ∧ q.2.name.data.length < sfuel ∧
        q.2.src.data.length < sfuel ∧ q.2.tags.data.length < sfuel) →
      es.length ≤ fuel → es ≠ [] →
      parseMembers sfuel fuel (dumpMembers es ++ '\n' :: '}' :: rest) = some (es, rest) := by
  intro es
  induction es with
  | nil =>
    intro sfuel fuel rest _ _ hne
    exact absurd rfl hne
  | cons p es ih =>
    intro sfuel fuel rest hlen hfuel _
    obtain ⟨f, rfl⟩ : ∃ f, fuel = f + 1 := ⟨fuel - 1, by simp at hfuel; omega⟩
    obtain ⟨hk, hn, hs, ht⟩ := hlen p (by simp)
    cases es with
    | nil =>
      show parseMembers sfuel (f + 1) (dumpMember p ++ '\n' :: '}' :: rest) = _
      rw [dumpMember]
      simp only [List.append_assoc, List.cons_append]
      simp [parseMembers, Bind.bind, Option.bind,
        parseString_encStr p.1 sfuel _ hk,
        skipWs_cons_of_not_ws (show isJsonWs ':' = false from rfl),
        expectChar_cons_self, skipWs_space, skipWs_dumpValue_append,
        parseValue3_dumpValue p.2 sfuel _ hn hs ht, skipWs_newline,
        skipWs_cons_of_not_ws (show isJsonWs '}' = false from rfl),
        string_mk_data]
    | cons w ws =>
      simp only [dumpMembers, List.append_assoc, List.cons_append]
      have hih := ih sfuel f rest (fun q hq => hlen q (List.mem_cons_of_mem p hq))
        (by simp at hfuel ⊢; omega) (List.cons_ne_nil w ws)
      rw [dumpMember]
      simp only [List.append_assoc, List.cons_append]
      simp [parseMembers, Bind.bind, Option.bind,
        parseString_encStr p.1 sfuel _ hk,
        skipWs_cons_of_not_ws (show isJsonWs ':' = false from rfl),
        expectChar_cons_self, skipWs_space, skipWs_dumpValue_append,
        parseValue3_dumpValue p.2 sfuel _ hn hs ht, skipWs_newline, skipWs_sp,
        skipWs_cons_of_not_ws (show isJsonWs ',' = false from rfl),
        skipWs_dumpMembers_cons, hih, string_mk_data]

theorem escChar_length_pos (c : Char) : 1 ≤ (escChar c).length := by
  rw [escChar]
  repeat' split
  all_goals simp [hex4]

theorem length_flatMap_escChar (s : List Char) : s.length ≤ (s.flatMap escChar).length := by
  induction s with
  | nil => simp
  | cons c s ih =>
    rw [List.flatMap_cons, List.length_append]
    have := escChar_length_pos c
    simp only [List.length_cons]
    omega

theorem length_encStr (s : String) : s.data.length + 2 ≤ (encStr s).length := by
  rw [encStr]
  simp only [List.length_cons, List.length_append, List.length_singleton]
  have := length_flatMap_escChar s.data
  omega

theorem length_dumpValue (e : Entry) :
    e.name.data.length < (dumpValue e).length ∧
    e.src.data.length < (dumpValue e).length ∧
    e.tags.data.length < (dumpValue e).length := by
  rw [dumpValue]
  simp only [List.length_append, List.length_cons, sp, List.length_replicate,
    List.length_singleton]
  have h1 := length_encStr e.name
  have h2 := length_encStr e.src
  have h3 := length_encStr e.tags
  omega

theorem length_dumpMember (q : String × Entry) :
    q.1.data.length < (dumpMember q).length ∧
    q.2.name.data.length < (dumpMember q).length ∧
    q.2.src.data.length < (dumpMember q).length ∧
    q.2.tags.data.length < (dumpMember q).length ∧
    1 ≤ (dumpMember q).length := by
  rw [dumpMember]
  simp only [List.length_append, List.length_cons]
  have h0 := length_encStr q.1
  have h4 := length_dumpValue q.2
  omega

theorem length_dumpMembers : ∀ es : List (String × Entry),
    es.length ≤ (dumpMembers es).length ∧
    ∀ q ∈ es, q.1.data.length < (dumpMembers es).length ∧
      q.2.name.data.length < (dumpMembers es).length ∧
      q.2.src.data.length < (dumpMembers es).length ∧
      q.2.tags.data.length < (dumpMembers es).length := by
  intro es
  induction es with
  | nil => simp [dumpMembers]
  | cons p es ih =>
    have hp := length_dumpMember p
    cases es with
    | nil =>
      refine ⟨hp.2.2.2.2, ?_⟩
      intro q hq
      rcases List.mem_singleton.mp hq with rfl
      exact ⟨hp.1, hp.2.1, hp.2.2.1, hp.2.2.2.1⟩
    | cons w ws =>
      have hsplit : (dumpMembers (p :: w :: ws)).length
          = (dumpMember p).length + 4 + (dumpMembers (w :: ws)).length := by
        simp only [dumpMembers, List.length_append, List.length_cons, sp,
          List.length_replicate]
      obtain ⟨ihc, ihm⟩ := ih
      refine ⟨?_, ?_⟩
      · simp only [List.length_cons] at ihc ⊢
        have := hp.2.2.2.2
        omega
      · intro q hq
        rcases List.mem_cons.mp hq with rfl | hq
        · exact ⟨by have := hp.1; omega, by have := hp.2.1; omega,
            by have := hp.2.2.1; omega, by have := hp.2.2.2.1; omega⟩
        · obtain ⟨b1, b2, b3, b4⟩ := ihm q hq
          exact ⟨by omega, by omega, by omega, by omega⟩

theorem dumpMember_head (q : String × Entry) :
    dumpMember q = '"' :: (q.1.data.flatMap escChar ++
      '"' :: ':' :: ' ' :: dumpValue q.2) := by
  rw [dumpMember, encStr]
  simp only [List.cons_append, List.append_assoc, List.nil_append]

theorem dumpMembers_cons_head (q : String × Entry) (es : List (String × Entry)) :
    ∃ t, dumpMembers (q :: es) = '"' :: t := by
  cases es with
  | nil => exact ⟨_, dumpMember_head q⟩
  | cons w ws =>
    refine ⟨(q.1.data.flatMap escChar ++ '"' :: ':' :: ' ' :: dumpValue q.2) ++
      (',' :: '\n' :: (sp 2 ++ dumpMembers (w :: ws))), ?_⟩
    simp only [dumpMembers, dumpMember_head q, List.cons_append, List.append_assoc]

theorem loadJson_dumpJson (m : List (String × Entry)) :
    loadJson (dumpJson m) = some (sortByKey m) := by
  cases hs : sortByKey m with
  | nil =>
    have hd : dumpJson m = ['{', '}'] := by rw [dumpJson, hs]
    rw [hd]
    rfl
  | cons p es =>
    have hd : dumpJson m = '{' :: '\n' :: sp 2 ++ dumpMembers (p :: es) ++ ['\n', '}'] := by
      rw [dumpJson, hs]
    obtain ⟨hcount, hstr⟩ := length_dumpMembers (p :: es)
    rw [hd]
    obtain ⟨t, ht⟩ := dumpMembers_cons_head p es
    simp only [List.cons_append, List.append_assoc]
    simp only [loadJson, Bind.bind, Option.bind,
      skipWs_cons_of_not_ws (show isJsonWs '{' = false from rfl),
      expectChar_cons_self, skipWs_newline, skipWs_sp]
    rw [show skipWs (dumpMembers (p :: es) ++ ['\n', '}'])
        = dumpMembers (p :: es) ++ ['\n', '}'] from skipWs_dumpMembers_cons p es _]
    rw [show dumpMembers (p :: es) ++ ['\n', '}'] = '"' :: (t ++ ['\n', '}'])
        by rw [ht, List.cons_append]]
    simp only [if_neg (show ¬('"' : Char) = '}' from by decide)]
    rw [show ('"' : Char) :: (t ++ ['\n', '}']) = dumpMembers (p :: es) ++ ['\n', '}']
        by rw [ht, List.cons_append]]
    have hlen6 : ('{' :: '\n' :: (sp 2 ++ (dumpMembers (p :: es) ++ ['\n', '}']))).length
        = (dumpMembers (p :: es)).length + 6 := by
      simp only [List.length_cons, List.length_append, List.length_nil, sp,
        List.length_replicate]
      omega
    rw [hlen6]
    rw [parseMembers_dumpMembers (p :: es) ((dumpMembers (p :: es)).length + 6 + 1)
      ((dumpMembers (p :: es)).length + 6 + 1) []
      (fun q hq => by
        obtain ⟨b1, b2, b3, b4⟩ := hstr q hq
        exact ⟨by omega, by omega, by omega, by omega⟩)
      (by simp only [List.length_cons] at hcount ⊢; omega)
      (List.cons_ne_nil p es)]
    rfl

theorem sortByKey_sorted (m : List (String × Entry)) :
    (sortByKey m).Pairwise (fun a b => strLe a.1 b.1 = true) :=
  List.sorted_insertionSort _ m

theorem sortByKey_perm (m : List (String × Entry)) : (sortByKey m).Perm m :=
  List.perm_insertionSort _ m

theorem dumpJson_sortByKey (m : List (String × Entry)) :
    dumpJson (sortByKey m) = dumpJson m := by
  rw [dumpJson, dumpJson,
    show sortByKey (sortByKey m) = sortByKey m from
      List.Sorted.insertionSort_eq (sortByKey_sorted m)]

theorem cache_find?_mem {m : Cache} {k : String} {v : Entry}
    (h : Cache.find? m k = some v) : (k, v) ∈ m := by
  induction m with
  | nil => simp [Cache.find?] at h
  | cons p m ih =>
    rw [cache_find?_cons] at h
    by_cases hp : p.1 = k
    · rw [if_pos hp] at h
      injection h with h
      have hpkv : p = (k, v) := by
        rw [← hp, ← h]
      exact hpkv ▸ List.mem_cons_self p m
    · rw [if_neg hp] at h
      exact List.mem_cons_of_mem _ (ih h)

theorem cache_find?_eq_none_iff {m : Cache} {k : String} :
    Cache.find? m k = none ↔ ∀ p ∈ m, p.1 ≠ k := by
  induction m with
  | nil => simp [Cache.find?]
  | cons p m ih =>
    rw [cache_find?_cons]
    by_cases hp : p.1 = k
    · simp [hp]
    · simp [hp, ih]

theorem cache_find?_eq_some_of_mem_nodup {m : Cache} {k : String} {v : Entry}
    (hnd : (m.map Prod.fst).Nodup) (hmem : (k, v) ∈ m) : Cache.find? m k = some v := by
  induction m with
  | nil => cases hmem
  | cons p m ih =>
    rw [List.map_cons, List.nodup_cons] at hnd
    rw [cache_find?_cons]
    rcases List.mem_cons.mp hmem with rfl | hmem2
    · simp
    · have hp : p.1 ≠ k := by
        intro hpk
        exact hnd.1 (hpk ▸ List.mem_map.mpr ⟨(k, v), hmem2, rfl⟩)
      rw [if_neg hp]
      exact ih hnd.2 hmem2

theorem cache_find?_perm {m m' : Cache} (hperm : m.Perm m')
    (hnd : (m.map Prod.fst).Nodup) (k : String) :
    Cache.find? m' k = Cache.find? m k := by
  cases h : Cache.find? m k with
  | some v =>
    have hmem : (k, v) ∈ m' := hperm.mem_iff.mp (cache_find?_mem h)
    have hnd' : (m'.map Prod.fst).Nodup := (hperm.map Prod.fst).nodup hnd
    exact cache_find?_eq_some_of_mem_nodup hnd' hmem
  | none =>
    rw [cache_find?_eq_none_iff] at h ⊢
    exact fun p hp => h p (hperm.mem_iff.mpr hp)

/-- C8: serializing a cache mapping with unique keys and deserializing the
resulting file yields an identical mapping (every lookup agrees; entries
come back in sorted key order), and re-serializing the deserialized cache
reproduces the file character for character (byte for byte, since the
emitted text is pure ASCII), because keys are written in sorted order. -/
theorem C8_cache_serialization_round_trip (m : List (String × Entry))
    (h : (m.map Prod.fst).Nodup) :
    loadJson (dumpJson m) = some (sortByKey m) ∧
      (∀ k, Cache.find? (sortByKey m) k = Cache.find? m k) ∧
      dumpJson (sortByKey m) = dumpJson m :=
  ⟨loadJson_dumpJson m,
    fun k => cache_find?_perm (sortByKey_perm m).symm h k,
    dumpJson_sortByKey m⟩

/-- A concrete two-entry cache used by the C8 witness. -/
def cacheSample : List (String × Entry) :=
  [("/r/b.mp3", bEntry), ("/r/a.mp3", aEntry)]

/-- Witness for C8 at the concrete two-entry cache. -/
theorem C8_witness :
    (cacheSample.map Prod.fst).Nodup ∧
      (loadJson (dumpJson cacheSample) = some (sortByKey cacheSample) ∧
        (∀ k, Cache.find? (sortByKey cacheSample) k = Cache.find? cacheSample k) ∧
        dumpJson (sortByKey cacheSample) = dumpJson cacheSample) :=
  ⟨by decide, C8_cache_serialization_round_trip cacheSample (by decide)⟩
